import Mathlib

/-!
Shallow embedding of the waveform engine of `src/soggetto/sound.py`.

The sample buffer of a `SoundWave` is a list over a commutative field `K`.
In the Python source the samples are (complex) floating-point numbers; the
embedding works over an arbitrary field so that every theorem holds in
particular for `K = ℂ`, while concrete witnesses instantiate `K = ℚ`.

The discrete Fourier transform used by `scipy.fftpack.fft`/`ifft` is the
standard DFT pair: `fft(x)_k = Σ_j x_j ω_N^(j*k)` with kernel
`ω_N = exp(-2*π*i/N)`, and `ifft(x)_k = (1/N) Σ_j x_j ω_N⁻¹^(j*k)`.
The kernel is supplied as a parameter `ω : ℕ → K` (the root for each
transform length), so the definitions stay computable and the theorems
quantify over every choice of kernel — in particular the true complex one.

Python `int` values are modeled as `ℕ` (sample rates, durations, lengths)
or `ℤ` where subtraction matters; float arithmetic in index computations
is modeled by exact rational arithmetic with `Int.floor` for Python's
`int()` truncation (all values truncated in this program are nonnegative,
where truncation and floor agree).
-/

namespace Soggetto

/-- The waveform data model of `SoundWave.__init__`: a sample rate and a
buffer of samples, stored verbatim. -/
structure SoundWave (K : Type) where
  rate : ℕ
  samples : List K
  deriving Repr, DecidableEq

/-- The error kinds raised by the engine (`ValueError`s and the `KeyError`
of the note-table lookup in `audio_sequence`). -/
inductive WaveError where
  | lengthMismatch
  | rateMismatch
  | keyError (note : String)
  | emptyInput
  deriving Repr, DecidableEq

variable {K : Type} [Field K]

/-- Embeds `SoundWave.__add__`: raises unless the two buffers have equal
length, then adds samples elementwise; the result carries `self.rate`
(the rates themselves are never compared). -/
def wave_add (a b : SoundWave K) : Except WaveError (SoundWave K) :=
  if a.samples.length ≠ b.samples.length then .error .lengthMismatch
  else .ok ⟨a.rate, List.zipWith (· + ·) a.samples b.samples⟩

/-- Embeds `SoundWave.__rshift__` (concatenation): raises unless the two
rates are equal, then appends `other.samples` after `self.samples`. -/
def wave_rshift (a b : SoundWave K) : Except WaveError (SoundWave K) :=
  if a.rate ≠ b.rate then .error .rateMismatch
  else .ok ⟨a.rate, a.samples ++ b.samples⟩

/-- `np.pad(x, (0, k), 'constant')`: append `k` zeros at the end. -/
def pad0 (x : List K) (k : ℕ) : List K :=
  x ++ List.replicate k 0

/-- Forward DFT of a buffer with kernel root `w` (models `fft`):
entry `k` is `Σ_j x_j * w^(j*k)`. -/
def dft (w : K) (x : List K) : List K :=
  (List.range x.length).map fun k =>
    ∑ j in Finset.range x.length, x.getD j 0 * w ^ (j * k)

/-- Inverse DFT with kernel root `w` (models `ifft`):
entry `k` is `(1/N) * Σ_j x_j * (w⁻¹)^(j*k)`. -/
def idft (w : K) (x : List K) : List K :=
  (List.range x.length).map fun k =>
    (x.length : K)⁻¹ * ∑ j in Finset.range x.length, x.getD j 0 * w⁻¹ ^ (j * k)

/-- `scipy.fftpack.fft`, with the kernel root chosen by buffer length. -/
def fftL (ω : ℕ → K) (x : List K) : List K :=
  dft (ω x.length) x

/-- `scipy.fftpack.ifft`, with the kernel root chosen by buffer length. -/
def ifftL (ω : ℕ → K) (x : List K) : List K :=
  idft (ω x.length) x

/-- Embeds `SoundWave.__mul__` (circular convolution): raises unless the
rates are equal; pads `f` by `abs(len(g) - len(f))`, then pads `g` by
`abs(len(f) - len(g))` where `f` is already the padded buffer (faithful
to the source, which rebinds `f` before computing `g`'s pad width);
multiplies the forward transforms elementwise and inverse-transforms. -/
def wave_mul (ω : ℕ → K) (a b : SoundWave K) : Except WaveError (SoundWave K) :=
  if a.rate ≠ b.rate then .error .rateMismatch
  else
    let f0 := a.samples
    let g0 := b.samples
    let f := pad0 f0 (Int.natAbs ((g0.length : ℤ) - (f0.length : ℤ)))
    let g := pad0 g0 (Int.natAbs ((f.length : ℤ) - (g0.length : ℤ)))
    .ok ⟨a.rate, ifftL ω (List.zipWith (· * ·) (fftL ω f) (fftL ω g))⟩

/-- Embeds `SoundWave.__pow__` (linear convolution): raises unless the
rates are equal; with `m = len(f)`, `n = len(g)`, pads both buffers to
length `2^a` where `a = ceil(log2(n + m - 1))` (`Nat.clog 2`), multiplies
the forward transforms elementwise, inverse-transforms, and keeps the
first `m + n - 1` entries. (For `m = n = 0` the source raises an
`OverflowError` from `int(np.ceil(np.log2(0)))`; no claim touches that
case and the embedding is only used with nonempty buffers.) -/
def wave_pow (ω : ℕ → K) (a b : SoundWave K) : Except WaveError (SoundWave K) :=
  if a.rate ≠ b.rate then .error .rateMismatch
  else
    let f0 := a.samples
    let g0 := b.samples
    let m := f0.length
    let n := g0.length
    let e := Nat.clog 2 (n + m - 1)
    let f := pad0 f0 (2 ^ e - m)
    let g := pad0 g0 (2 ^ e - n)
    .ok ⟨a.rate, (ifftL ω (List.zipWith (· * ·) (fftL ω f) (fftL ω g))).take (m + n - 1)⟩

/-- Python slice assignment `x[lo:hi] = 0` on a 1-D array, for the
nonnegative, clamped indices used in `clean`. -/
def setZero (x : List K) (lo hi : ℕ) : List K :=
  (List.range x.length).map fun i => if lo ≤ i ∧ i < hi then 0 else x.getD i 0

/-- Embeds `SoundWave.clean` (band removal, in place): computes
`k_low = int(low_freq * (N / rate))` and `k_high = int(high_freq * (N / rate))`,
zeroes DFT bins `[k_low, k_high)` and `[n - k_high, n - k_low)`, and
replaces `samples` with the inverse transform.  Modeled as a state
transformer: the returned wave is `self` after the in-place update.
All uses have nonnegative frequencies and `k_high ≤ n`, where Python's
truncating `int()` is `Int.floor` and the slice bounds are the natural
numbers used here.  The index computation is exact rational arithmetic,
while the source computes `high_freq * (len / rate)` in IEEE binary64:
the two agree whenever every intermediate value is exactly representable
(in particular whenever the quotient and the product are integers below
`2^53`), but under rounding the float product can fall just below an
integer — e.g. at rate 44100 and `N = 30` the product `22050 * (30/44100)`
evaluates just below 15, so `int()` yields 14 instead of `N/2 = 15` — so
theorems about the index values of `clean` are stated only on domains
where the float computation is exact. -/
def wave_clean (ω : ℕ → K) (low_freq high_freq : ℚ) (w : SoundWave K) : SoundWave K :=
  let k_low := (Int.floor (low_freq * ((w.samples.length : ℚ) / (w.rate : ℚ)))).toNat
  let k_high := (Int.floor (high_freq * ((w.samples.length : ℚ) / (w.rate : ℚ)))).toNat
  let d := fftL ω w.samples
  let n := d.length
  let d1 := setZero d k_low k_high
  let d2 := setZero d1 (n - k_high) (n - k_low)
  ⟨w.rate, ifftL ω d2⟩

/-- IEEE-style float division as performed by numpy on the sample buffer:
division by zero yields a non-finite value (NaN or ±inf, with only a
runtime warning), modeled as `none`; every finite quotient is `some`. -/
def fdiv (x y : ℚ) : Option ℚ :=
  if y = 0 then none else some (x / y)

/-- `abs(samples).max()`: the peak absolute sample value.  (numpy raises
on an empty buffer; no claim touches that case.) -/
def peak (samples : List ℚ) : ℚ :=
  (samples.map fun s => |s|).foldr max 0

/-- The rescaling pipeline of `SoundWave.export`: divide every sample by
the peak, multiply by 32767.  A zero peak turns every quotient into a
non-finite value (`none`), which the source then carries on into
`astype(np.int16)` — it never raises. -/
def export_scaled (samples : List ℚ) : List (Option ℚ) :=
  let p := peak samples
  samples.map fun s => (fdiv s p).map (· * 32767)

/-- C-style truncation of a float to `np.int16`: drop the fractional part
toward zero, then wrap into `[-2^15, 2^15)`. -/
def toInt16 (q : ℚ) : ℤ :=
  let t : ℤ := if 0 ≤ q then Int.floor q else Int.ceil q
  (t + 2 ^ 15) % 2 ^ 16 - 2 ^ 15

/-- The written `.wav` payload: rate plus 16-bit data, where `none` marks
a value obtained from a non-finite float. -/
structure WavFile where
  filename : String
  rate : ℕ
  data : List (Option ℤ)
  deriving Repr, DecidableEq

/-- Embeds `SoundWave.export` as a state transformer returning `self`
after the call together with the file payload.  The samples are rescaled
(peak-normalized, scaled to 32767, cast to int16) when the buffer is not
already `np.int16` or `force` is set; the buffer's dtype is the flag
`isInt16` (a `List ℚ` carries no dtype).  `self` is never modified, and
there is no failure outcome: a zero peak flows through as non-finite
data rather than an error. -/
def export_method (w : SoundWave ℚ) (isInt16 force : Bool) (filename : String) :
    SoundWave ℚ × WavFile :=
  let data :=
    if isInt16 && !force then w.samples.map fun s => some (toInt16 s)
    else (export_scaled w.samples).map fun o => o.map toInt16
  (w, ⟨filename, w.rate, data⟩)

/-- The `NOTE_FREQ` table of `sound.py`. -/
def NOTE_FREQ (note : String) : Option ℚ :=
  if note = "C" then some 261.6256
  else if note = "D" then some 293.6648
  else if note = "E" then some 329.6276
  else if note = "F" then some 349.2282
  else if note = "G" then some 391.9954
  else none

/-- `np.linspace(a, b, n)`: `n` evenly spaced points from `a` to `b`
inclusive (a single point is the start value). -/
def linspace (a b : ℚ) (n : ℕ) : List ℚ :=
  if n = 1 then [a]
  else (List.range n).map fun i : ℕ => a + (b - a) * (i : ℚ) / ((n : ℚ) - 1)

/-- Embeds `generate_note`: rate 44100, `N = rate * duration` samples at
the times `linspace 0 duration N`.  The sine evaluation
`np.sin(2 * np.pi * x * frequency)` is modeled by the parameter
`s : ℚ → K` standing for `y ↦ sin (2 * π * y)` applied to
`x * frequency`, so the buffer stays in the generic sample field. -/
def generate_note (s : ℚ → K) (frequency : ℚ) (duration : ℕ) : SoundWave K :=
  let rate := 44100
  let N := rate * duration
  let x := linspace 0 (duration : ℚ) N
  ⟨rate, x.map fun t => s (t * frequency)⟩

/-- A single `NOTE_FREQ[note]` subscript: a missing symbol is Python's
`KeyError`. -/
def lookupNote (note : String) : Except WaveError ℚ :=
  match NOTE_FREQ note with
  | some f => Except.ok f
  | none => Except.error (WaveError.keyError note)

/-- The list comprehension `[NOTE_FREQ[note] for note in note_sequence]`:
resolves the symbols in order, raising on the first missing one. -/
def resolveNotes : List String → Except WaveError (List ℚ)
  | [] => .ok []
  | nt :: rest => do
    let f ← lookupNote nt
    let fs ← resolveNotes rest
    .ok (f :: fs)

/-- Embeds `audio_sequence`: raises on an empty note list, resolves every
symbol through `NOTE_FREQ`, generates one tone per note, and folds the
tones after the first onto the first with `>>` (`wave_rshift`) left to
right.  The inner `[]` branch mirrors taking `hertz[0]`; it cannot be
reached (`resolveNotes` preserves length and the empty list was already
rejected). -/
def audio_sequence (s : ℚ → K) (note_sequence : List String) (duration : ℕ) :
    Except WaveError (SoundWave K) :=
  if note_sequence.length = 0 then .error .emptyInput
  else do
    let hertz ← resolveNotes note_sequence
    match hertz with
    | [] => .error .emptyInput
    | f0 :: rest =>
      rest.foldlM (fun audio f => wave_rshift audio (generate_note s f duration))
        (generate_note s f0 duration)

/-! ## Supporting lemmas -/

@[simp] theorem except_bind_ok {ε α β : Type} (a : α) (f : α → Except ε β) :
    (Except.ok a >>= f) = f a := rfl

@[simp] theorem except_bind_error {ε α β : Type} (e : ε) (f : α → Except ε β) :
    ((Except.error e : Except ε α) >>= f) = Except.error e := rfl

@[simp] theorem pad0_length (x : List K) (k : ℕ) : (pad0 x k).length = x.length + k := by
  simp [pad0]

@[simp] theorem dft_length (w : K) (x : List K) : (dft w x).length = x.length := by
  simp [dft]

@[simp] theorem idft_length (w : K) (x : List K) : (idft w x).length = x.length := by
  simp [idft]

@[simp] theorem fftL_length (ω : ℕ → K) (x : List K) : (fftL ω x).length = x.length := by
  simp [fftL]

@[simp] theorem ifftL_length (ω : ℕ → K) (x : List K) : (ifftL ω x).length = x.length := by
  simp [ifftL]

@[simp] theorem setZero_length (x : List K) (lo hi : ℕ) :
    (setZero x lo hi).length = x.length := by
  simp [setZero]

@[simp] theorem linspace_length (a b : ℚ) (n : ℕ) : (linspace a b n).length = n := by
  unfold linspace
  split
  · simp [*]
  · rw [List.length_map, List.length_range]

@[simp] theorem generate_note_rate (s : ℚ → K) (f : ℚ) (d : ℕ) :
    (generate_note s f d).rate = 44100 := rfl

@[simp] theorem generate_note_samples_length (s : ℚ → K) (f : ℚ) (d : ℕ) :
    (generate_note s f d).samples.length = 44100 * d := by
  simp [generate_note]

theorem wave_rshift_ok (a b : SoundWave K) (h : a.rate = b.rate) :
    wave_rshift a b = .ok ⟨a.rate, a.samples ++ b.samples⟩ := by
  simp [wave_rshift, h]

theorem getD_map_range {n i : ℕ} (f : ℕ → K) (d : K) (h : i < n) :
    (((List.range n).map f).getD i d) = f i := by
  rw [List.getD_eq_getElem?_getD, List.getElem?_map, List.getElem?_range h]
  rfl

/-- Inverse transform of an all-zero spectrum is all-zero. -/
theorem ifftL_replicate_zero (ω : ℕ → K) (n : ℕ) :
    ifftL ω (List.replicate n (0 : K)) = List.replicate n 0 := by
  unfold ifftL idft
  rw [List.eq_replicate_iff]
  constructor
  · simp
  · intro b hb
    simp only [List.mem_map, List.mem_range, List.length_replicate] at hb
    obtain ⟨k, -, hk⟩ := hb
    rw [← hk]
    have hz : ∀ j ∈ Finset.range n, (List.replicate n (0 : K)).getD j 0 *
        ((ω n)⁻¹) ^ (j * k) = 0 := by
      intro j hj
      rw [List.getD_eq_getElem?_getD, List.getElem?_replicate]
      simp [Nat.lt_of_lt_of_le (List.mem_range.mp hj) (le_refl n), List.mem_range.mp hj]
    rw [Finset.sum_congr rfl hz]
    simp

/-- On equal-rate inputs, the left fold of `audio_sequence` succeeds and
returns a rate-44100 wave extending the accumulator by the tones of the
remaining frequencies, in order. -/
theorem foldl_rshift_ok (s : ℚ → K) (d : ℕ) (fs : List ℚ) (acc : SoundWave K)
    (hacc : acc.rate = 44100) :
    fs.foldlM (fun audio f => wave_rshift audio (generate_note s f d)) acc =
      .ok ⟨44100, acc.samples ++
        (fs.map fun f => (generate_note s f d).samples).flatten⟩ := by
  induction fs generalizing acc with
  | nil =>
    obtain ⟨r, smp⟩ := acc
    simp only at hacc
    subst hacc
    simp only [List.map_nil, List.flatten_nil, List.append_nil, List.foldlM_nil]
    rfl
  | cons f rest ih =>
    rw [List.foldlM_cons, wave_rshift_ok _ _ (by rw [hacc]; rfl), except_bind_ok,
      ih ⟨acc.rate, acc.samples ++ (generate_note s f d).samples⟩ hacc]
    simp [hacc, List.append_assoc]

theorem resolveNotes_ok_length {l : List String} {fs : List ℚ}
    (h : resolveNotes l = .ok fs) : fs.length = l.length := by
  induction l generalizing fs with
  | nil =>
    simp only [resolveNotes] at h
    cases h
    rfl
  | cons nt rest ih =>
    simp only [resolveNotes] at h
    cases hl : lookupNote nt with
    | error e => rw [hl] at h; simp at h
    | ok f =>
      rw [hl, except_bind_ok] at h
      cases hr : resolveNotes rest with
      | error e => rw [hr] at h; simp at h
      | ok fs2 =>
        rw [hr, except_bind_ok] at h
        cases h
        simp [ih hr]

theorem resolveNotes_error_keyError {l : List String} {e : WaveError}
    (h : resolveNotes l = .error e) : ∃ nt, e = .keyError nt := by
  induction l with
  | nil => simp [resolveNotes] at h
  | cons nt rest ih =>
    simp only [resolveNotes] at h
    cases hl : lookupNote nt with
    | error e2 =>
      rw [hl] at h
      simp only [except_bind_error, Except.error.injEq] at h
      subst h
      unfold lookupNote at hl
      cases hnf : NOTE_FREQ nt with
      | some f => rw [hnf] at hl; cases hl
      | none => rw [hnf] at hl; cases hl; exact ⟨nt, rfl⟩
    | ok f =>
      rw [hl, except_bind_ok] at h
      cases hr : resolveNotes rest with
      | error e2 =>
        rw [hr] at h
        simp only [except_bind_error, Except.error.injEq] at h
        subst h
        exact ih hr
      | ok fs => rw [hr, except_bind_ok] at h; simp at h

theorem resolveNotes_all_some {l : List String}
    (h : ∀ nt ∈ l, (NOTE_FREQ nt).isSome) :
    resolveNotes l = .ok (l.map fun nt => (NOTE_FREQ nt).getD 0) := by
  induction l with
  | nil => rfl
  | cons nt rest ih =>
    have hnt := h nt (List.mem_cons_self nt rest)
    obtain ⟨f, hf⟩ := Option.isSome_iff_exists.mp hnt
    have hrest := ih fun x hx => h x (List.mem_cons_of_mem nt hx)
    simp [resolveNotes, lookupNote, hf, hrest]

/-- The total sample count of a list of generated tones. -/
theorem flatten_tones_length (s : ℚ → K) (d : ℕ) (fs : List ℚ) :
    ((fs.map fun f => (generate_note s f d).samples).flatten).length =
      fs.length * (44100 * d) := by
  induction fs with
  | nil => simp
  | cons f rest ih =>
    simp only [List.map_cons, List.flatten_cons, List.length_append,
      generate_note_samples_length, ih, List.length_cons]
    ring

/-! ## Claim theorems -/

/-- C5: `Concatenate` (`>>`), `ConvolveCircular` (`*`), and
`ConvolveLinear` (`**`) raise the rate-mismatch error exactly when the
operands' sample rates differ; `Add` (`+`) raises the length-mismatch
error exactly when the sample buffers have unequal length, raises no
other error kind (rates are never compared), and on success returns the
elementwise sum carrying `a.rate` even when the rates differ. -/
theorem op_precondition_checks (ω : ℕ → K) (a b : SoundWave K) :
    (wave_rshift a b = .error .rateMismatch ↔ a.rate ≠ b.rate) ∧
    (wave_mul ω a b = .error .rateMismatch ↔ a.rate ≠ b.rate) ∧
    (wave_pow ω a b = .error .rateMismatch ↔ a.rate ≠ b.rate) ∧
    (wave_add a b = .error .lengthMismatch ↔ a.samples.length ≠ b.samples.length) ∧
    (∀ e, wave_add a b = .error e → e = .lengthMismatch) ∧
    (a.samples.length = b.samples.length →
      wave_add a b = .ok ⟨a.rate, List.zipWith (· + ·) a.samples b.samples⟩) := by
  refine ⟨?_, ?_, ?_, ?_, ?_, ?_⟩
  · unfold wave_rshift; split <;> simp_all
  · unfold wave_mul; split <;> simp_all
  · unfold wave_pow; split <;> simp_all
  · unfold wave_add; split <;> simp_all
  · unfold wave_add; split <;> simp_all
  · intro h; unfold wave_add; simp [h]

/-- C5 witness: a concrete rate mismatch on `>>` and a concrete
rate-ignoring success of `+`. -/
theorem op_precondition_checks_witness :
    wave_rshift (K := ℚ) ⟨44100, [1]⟩ ⟨22050, [2]⟩ = .error .rateMismatch ∧
    wave_add (K := ℚ) ⟨44100, [1]⟩ ⟨22050, [2]⟩ = .ok ⟨44100, [3]⟩ := by
  have h := op_precondition_checks (fun _ => (1 : ℚ)) ⟨44100, [1]⟩ ⟨22050, [2]⟩
  refine ⟨h.1.mpr (by norm_num), ?_⟩
  rw [h.2.2.2.2.2 rfl]
  norm_num

/-- C7: concatenation appends the sample buffers in order, its length is
the sum of the operand lengths, and it is associative in effect on the
samples for equal-rate waveforms. -/
theorem concat_assoc_on_samples (a b c : SoundWave K)
    (hab : a.rate = b.rate) (hbc : b.rate = c.rate) :
    ∃ ab bc l r : SoundWave K,
      wave_rshift a b = .ok ab ∧ wave_rshift b c = .ok bc ∧
      wave_rshift ab c = .ok l ∧ wave_rshift a bc = .ok r ∧
      ab.samples = a.samples ++ b.samples ∧
      ab.samples.length = a.samples.length + b.samples.length ∧
      l.samples = r.samples := by
  refine ⟨⟨a.rate, a.samples ++ b.samples⟩, ⟨b.rate, b.samples ++ c.samples⟩,
    ⟨a.rate, a.samples ++ b.samples ++ c.samples⟩,
    ⟨a.rate, a.samples ++ (b.samples ++ c.samples)⟩,
    wave_rshift_ok a b hab, wave_rshift_ok b c hbc, ?_, ?_, rfl, by simp,
    by simp [List.append_assoc]⟩
  · exact wave_rshift_ok ⟨a.rate, a.samples ++ b.samples⟩ c (hab.trans hbc)
  · exact wave_rshift_ok a ⟨b.rate, b.samples ++ c.samples⟩ hab

/-- C7 witness at three concrete equal-rate waveforms. -/
theorem concat_assoc_on_samples_witness :
    ∃ ab bc l r : SoundWave ℚ,
      wave_rshift ⟨8, [1]⟩ ⟨8, [2]⟩ = .ok ab ∧ wave_rshift ⟨8, [2]⟩ ⟨8, [3]⟩ = .ok bc ∧
      wave_rshift ab ⟨8, [3]⟩ = .ok l ∧ wave_rshift ⟨8, [1]⟩ bc = .ok r ∧
      ab.samples = [1, 2] ∧ ab.samples.length = 2 ∧ l.samples = r.samples := by
  have h := concat_assoc_on_samples (K := ℚ) ⟨8, [1]⟩ ⟨8, [2]⟩ ⟨8, [3]⟩ rfl rfl
  simpa using h

/-- C9: `audio_sequence` raises the empty-input error exactly on the
empty note list (a nonempty list can raise only a key error, or
succeeds). -/
theorem audio_sequence_empty_error_iff (s : ℚ → K) (notes : List String) (d : ℕ) :
    audio_sequence s notes d = .error .emptyInput ↔ notes = [] := by
  constructor
  · intro h
    by_contra hne
    unfold audio_sequence at h
    rw [if_neg (by simpa using hne)] at h
    cases hr : resolveNotes notes with
    | error e =>
      rw [hr, except_bind_error] at h
      obtain ⟨nt, rfl⟩ := resolveNotes_error_keyError hr
      simp at h
    | ok fs =>
      rw [hr, except_bind_ok] at h
      have hlen : fs.length = notes.length := resolveNotes_ok_length hr
      cases fs with
      | nil =>
        apply hne
        apply List.length_eq_zero.mp
        simpa using hlen.symm
      | cons f0 rest =>
        have h2 : (rest.foldlM (fun audio f => wave_rshift audio (generate_note s f d))
            (generate_note s f0 d)) = Except.error WaveError.emptyInput := h
        rw [foldl_rshift_ok s d rest (generate_note s f0 d) rfl] at h2
        simp at h2
  · rintro rfl
    rfl

/-- C9 witness: the empty note list raises the empty-input error. -/
theorem audio_sequence_empty_error_iff_witness :
    audio_sequence (K := ℚ) (fun _ => 0) [] 1 = .error .emptyInput :=
  (audio_sequence_empty_error_iff (fun _ => 0) [] 1).mpr rfl

/-- C10: on equal-length buffers `Add` commutes elementwise on the
samples, while each result inherits the rate of its own left operand
(rates may differ). -/
theorem add_commutes_on_samples (a b : SoundWave K)
    (h : a.samples.length = b.samples.length) :
    ∃ r1 r2 : SoundWave K,
      wave_add a b = .ok r1 ∧ wave_add b a = .ok r2 ∧
      r1.samples = r2.samples ∧ r1.rate = a.rate ∧ r2.rate = b.rate := by
  refine ⟨⟨a.rate, List.zipWith (· + ·) a.samples b.samples⟩,
    ⟨b.rate, List.zipWith (· + ·) b.samples a.samples⟩, ?_, ?_, ?_, rfl, rfl⟩
  · simp [wave_add, h]
  · simp [wave_add, h]
  · exact List.zipWith_comm_of_comm _ add_comm a.samples b.samples

/-- C10 witness at concrete waveforms with different rates. -/
theorem add_commutes_on_samples_witness :
    ∃ r1 r2 : SoundWave ℚ,
      wave_add ⟨4, [1, 2]⟩ ⟨8, [3, 4]⟩ = .ok r1 ∧
      wave_add ⟨8, [3, 4]⟩ ⟨4, [1, 2]⟩ = .ok r2 ∧
      r1.samples = r2.samples ∧ r1.rate = 4 ∧ r2.rate = 8 :=
  add_commutes_on_samples ⟨4, [1, 2]⟩ ⟨8, [3, 4]⟩ rfl

/-- C1 (refuting evaluation): with `len(a.samples) = 3 > 1 = len(b.samples)`
circular convolution succeeds but returns 5 samples, not
`max(len(a.samples), len(b.samples)) = 3`: the source pads `f` — already
the longer buffer — by `m - n` and then pads `g` against the rebound
`f`, so both transforms run at length `2*m - n`. -/
theorem convCircular_result_length_bug (K : Type) [Field K] (ω : ℕ → K) :
    (wave_mul ω ⟨44100, ([1, 2, 3] : List K)⟩ ⟨44100, [4]⟩).map
      (fun w => w.samples.length) = .ok 5 ∧
    max ([1, 2, 3] : List K).length ([4] : List K).length = 3 := by
  constructor
  · unfold wave_mul
    rw [if_neg (by norm_num)]
    show Except.ok _ = _
    simp [pad0]
  · simp

/-- C2 (refuting evaluation): exporting an all-zero (silent) float buffer
does not raise: the peak is 0, every sample is divided by 0 — a
non-finite float (`none`) under numpy — and the non-finite data flows
into the written file instead of a domain error (the embedded `export`
has no error outcome at all, faithfully to the source). -/
theorem export_silent_buffer_writes_nonfinite :
    export_method ⟨44100, [0, 0]⟩ false false "out.wav" =
      (⟨44100, [0, 0]⟩, ⟨"out.wav", 44100, [none, none]⟩) := by
  norm_num [export_method, export_scaled, peak, fdiv]

/-- C4: for equal rates and nonempty buffers of lengths `m` and `n`,
linear convolution (`**`) succeeds, the result inherits `a.rate`, and its
sample count is exactly `m + n - 1` (the buffers are padded to
`2 ^ ceil(log2(m+n-1))`, convolved, and truncated). -/
theorem convLinear_result_length (ω : ℕ → K) (a b : SoundWave K)
    (hrate : a.rate = b.rate) (ha : a.samples ≠ []) (hb : b.samples ≠ []) :
    ∃ r : SoundWave K, wave_pow ω a b = .ok r ∧ r.rate = a.rate ∧
      r.samples.length = a.samples.length + b.samples.length - 1 := by
  have hm : 1 ≤ a.samples.length := List.length_pos.mpr ha
  have hn : 1 ≤ b.samples.length := List.length_pos.mpr hb
  have hpow : b.samples.length + a.samples.length - 1 ≤
      2 ^ Nat.clog 2 (b.samples.length + a.samples.length - 1) :=
    Nat.le_pow_clog (by norm_num) _
  unfold wave_pow
  rw [if_neg (by simp [hrate])]
  refine ⟨_, rfl, rfl, ?_⟩
  simp only [List.length_take, ifftL_length, List.length_zipWith, fftL_length, pad0_length]
  omega

/-- C4 witness at concrete nonempty waveforms. -/
theorem convLinear_result_length_witness :
    ∃ r : SoundWave ℚ, wave_pow (fun _ => 1) ⟨2, [1, 2]⟩ ⟨2, [5]⟩ = .ok r ∧
      r.rate = 2 ∧ r.samples.length = 2 :=
  convLinear_result_length (fun _ => 1) ⟨2, [1, 2]⟩ ⟨2, [5]⟩ rfl (by simp) (by simp)

/-- C6: on a nonempty note list whose symbols all resolve in `NOTE_FREQ`,
`audio_sequence` succeeds with a rate-44100 waveform whose samples are
the concatenation of the per-note tones in input order, so its sample
count is `len(notes) * (44100 * duration)`. -/
theorem audio_sequence_note_count_length (s : ℚ → K) (notes : List String) (d : ℕ)
    (hne : notes ≠ []) (hall : ∀ nt ∈ notes, (NOTE_FREQ nt).isSome) :
    ∃ w : SoundWave K, audio_sequence s notes d = .ok w ∧ w.rate = 44100 ∧
      w.samples =
        (notes.map fun nt => (generate_note s ((NOTE_FREQ nt).getD 0) d).samples).flatten ∧
      w.samples.length = notes.length * (44100 * d) := by
  obtain ⟨n0, rest, rfl⟩ := List.exists_cons_of_ne_nil hne
  unfold audio_sequence
  rw [if_neg (by simp), resolveNotes_all_some hall, except_bind_ok, List.map_cons]
  have hfold := foldl_rshift_ok s d (rest.map fun nt => (NOTE_FREQ nt).getD 0)
    (generate_note s ((NOTE_FREQ n0).getD 0) d) rfl
  refine ⟨_, hfold, rfl, ?_, ?_⟩
  · simp only [List.map_map]
    rfl
  · have := flatten_tones_length s d
      (((NOTE_FREQ n0).getD 0) :: rest.map fun nt => (NOTE_FREQ nt).getD 0)
    simp only [List.map_cons, List.flatten_cons, List.length_append,
      generate_note_samples_length] at this ⊢
    simpa [List.map_map] using this

/-- C6 witness: a single note of one second is 44100 samples. -/
theorem audio_sequence_note_count_length_witness :
    ∃ w : SoundWave ℚ, audio_sequence (fun _ => 0) ["C"] 1 = .ok w ∧ w.rate = 44100 ∧
      w.samples =
        (["C"].map fun nt =>
          (generate_note (fun _ => (0 : ℚ)) ((NOTE_FREQ nt).getD 0) 1).samples).flatten ∧
      w.samples.length = 44100 := by
  have h := audio_sequence_note_count_length (K := ℚ) (fun _ => 0) ["C"] 1
    (by simp) (by intro nt hnt; simp at hnt; simp [hnt, NOTE_FREQ])
  simpa using h

/-- C3 (counterexample): `FilterBand(0, rate/2)` on the one-sample
waveform `⟨rate 2, [1]⟩` computes `kLow = kHigh = ⌊1 * (1/2)⌋ = 0`,
zeroes nothing, and returns the waveform unchanged — samples `[1]`, a
full-amplitude nonzero buffer, not near-zero as claimed for every
`N ≥ 1`.  (For a one-point transform every kernel is the identity, and
`exp(-2*π*i/1) = 1` is the kernel used here.) -/
theorem clean_fullband_single_sample_unchanged :
    (wave_clean (fun _ => (1 : ℚ)) 0 ((2 : ℚ) / 2) ⟨2, [1]⟩).samples = [1] ∧
    (1 : ℚ) ≠ 0 := by
  constructor
  · norm_num [wave_clean, fftL, ifftL, dft, idft, setZero, List.range_succ,
      Finset.sum_range_succ]
  · norm_num

/-- C3 (amended): whenever the sample count `N` is a positive multiple of
an even positive rate, with `N < 2^53`, `FilterBand(0, rate/2)` computes
`kLow = 0` and `kHigh = N/2` and zeroes bins `[0, N/2)` and `[N/2, N)` —
every bin — so the result is exactly zero everywhere, for every transform
kernel.  The hypotheses delimit the domain on which the source's float
index computation is exact, so that the rational model coincides with the
program: `rate/2` and `N/rate` are integers, and every intermediate value
(quotient, product, `N/2`) is an integer below `2^53`, where IEEE binary64
division and multiplication incur no rounding.  This domain contains every
waveform the synthesizer produces (`rate = 44100`, `N = 44100 * d`).
Outside it the program can zero fewer bins: float rounding can give
`kHigh = N/2 - 1` even for even `N` (e.g. rate 44100, `N = 30`), leaving
bins `N/2 - 1` and `N/2` untouched, and for odd `N` the bin `(N-1)/2` is
untouched, as the counterexample shows at `N = 1`. -/
theorem clean_fullband_rate_dvd_zeroes_all (ω : ℕ → K) (w : SoundWave K)
    (hrate : 0 < w.rate) (h2 : 2 ∣ w.rate) (hdvd : w.rate ∣ w.samples.length)
    (hpos : 0 < w.samples.length) (hbound : w.samples.length < 2 ^ 53) :
    (wave_clean ω 0 ((w.rate : ℚ) / 2) w).samples =
      List.replicate w.samples.length 0 := by
  obtain ⟨t, ht⟩ : 2 ∣ w.samples.length := h2.trans hdvd
  have hkl : (Int.floor ((0 : ℚ) * ((w.samples.length : ℚ) / (w.rate : ℚ)))).toNat = 0 := by
    norm_num
  have hkh : (Int.floor (((w.rate : ℚ) / 2) *
      ((w.samples.length : ℚ) / (w.rate : ℚ)))).toNat = t := by
    have hr0 : ((w.rate : ℚ)) ≠ 0 := Nat.cast_ne_zero.mpr hrate.ne'
    have he : ((w.rate : ℚ) / 2) * ((w.samples.length : ℚ) / (w.rate : ℚ)) = (t : ℚ) := by
      rw [ht]
      push_cast
      field_simp
      ring
    rw [he, Int.floor_natCast, Int.toNat_natCast]
  have hd2 : setZero (setZero (fftL ω w.samples) 0 t)
      (w.samples.length - t) (w.samples.length - 0) =
      List.replicate w.samples.length 0 := by
    apply List.ext_getElem
    · simp
    · intro i h1 h2
      have hiN : i < w.samples.length := by simpa using h2
      simp only [setZero, fftL_length, setZero_length, List.getElem_map, List.getElem_range,
        List.getElem_replicate, List.length_map, List.length_range]
      by_cases hit : i < t
      · rw [if_neg (by omega), getD_map_range _ _ hiN, if_pos ⟨Nat.zero_le i, hit⟩]
      · rw [if_pos (by omega)]
  simp only [wave_clean, hkl, hkh, fftL_length]
  rw [hd2, ifftL_replicate_zero]

/-- C3 witness for the amended claim: a concrete waveform whose sample
count (2) is a multiple of its even rate (2) is wiped to zero. -/
theorem clean_fullband_rate_dvd_zeroes_all_witness :
    (wave_clean (fun _ => (1 : ℚ)) 0 (((2 : ℕ) : ℚ) / 2) ⟨2, [3, 5]⟩).samples =
      List.replicate 2 0 :=
  clean_fullband_rate_dvd_zeroes_all (fun _ => 1) ⟨2, [3, 5]⟩ (by norm_num)
    ⟨1, rfl⟩ ⟨1, rfl⟩ (by norm_num) (by norm_num)

/-- C8: the filtering operation is the one that mutates: modeled as a
state transformer it returns `self` with only the `samples` field
reassigned (rate preserved, no separate result value), and it genuinely
rewrites the buffer (a concrete band removal changes `[3, 5]` to
`[0, 0]`); `export` returns `self` unchanged next to the file payload.
`Add`, `Concatenate`, `ConvolveCircular` and `ConvolveLinear` are pure
functions of their operands in this embedding — operand buffers and
rates are untouched by construction — and each returns a freshly built
result value, e.g. concatenation's shape restated here. -/
theorem clean_mutates_export_pure (K : Type) [Field K] :
    (∀ (ω : ℕ → K) (low high : ℚ) (w : SoundWave K),
        (wave_clean ω low high w).rate = w.rate) ∧
    ((∀ ω : ℕ → ℚ, (wave_clean ω 0 1 ⟨2, [3, 5]⟩).samples = [0, 0]) ∧
      ([0, 0] : List ℚ) ≠ [3, 5]) ∧
    (∀ (w : SoundWave ℚ) (i16 fr : Bool) (fn : String),
        (export_method w i16 fr fn).1 = w) ∧
    (∀ a b : SoundWave K, a.rate = b.rate →
        wave_rshift a b = .ok ⟨a.rate, a.samples ++ b.samples⟩) := by
  refine ⟨fun ω low high w => rfl, ⟨?_, by norm_num⟩,
    fun w i16 fr fn => rfl, fun a b h => wave_rshift_ok a b h⟩
  intro ω
  norm_num [wave_clean, fftL, ifftL, dft, idft, setZero, List.range_succ,
    Finset.sum_range_succ]

/-- C8 witness: concrete instances of the frame facts. -/
theorem clean_mutates_export_pure_witness :
    (wave_clean (fun _ => (1 : ℚ)) 0 1 ⟨2, [3, 5]⟩).rate = 2 ∧
    (export_method ⟨3, [7]⟩ true false "a.wav").1 = ⟨3, [7]⟩ := by
  have h := clean_mutates_export_pure ℚ
  exact ⟨h.1 (fun _ => 1) 0 1 ⟨2, [3, 5]⟩, h.2.2.1 ⟨3, [7]⟩ true false "a.wav"⟩

end Soggetto
